import Mathlib

/-!
Verification development for a VAE/VRNN library: shallow embedding of
the reparameterizers (isotropic Gaussian, Gumbel-softmax), the abstract
VAE loss/generation control flow, the VRNN recurrent memory module and
the VRNN multi-step unroll, together with theorems settling the frozen
claims about them.

Conventions of the embedding:
* a tensor row is a `List ℝ`; where NaN propagation matters a value is a
  `TReal` (`nan` or a finite real) and a tensor row is a `List TReal`;
* randomness (normal/uniform draws) is passed in as an explicit argument;
* Python exceptions are `Except` errors with dedicated error enums;
* `detach` is the identity on forward values.
-/

/-- A real value that may be NaN.  Models the float NaN propagation that
the code guards with `nan_check_and_break`. -/
inductive TReal where
  | nan : TReal
  | fin : ℝ → TReal

/-- NaN test, mirroring `torch.isnan` on a scalar. -/
def TReal.isNan : TReal → Bool
  | .nan => true
  | .fin _ => false

/-- Addition with NaN propagation. -/
def TReal.add : TReal → TReal → TReal
  | .fin a, .fin b => .fin (a + b)
  | _, _ => .nan

/-- Multiplication with NaN propagation. -/
def TReal.mul : TReal → TReal → TReal
  | .fin a, .fin b => .fin (a * b)
  | _, _ => .nan

/-- Subtraction with NaN propagation. -/
def TReal.sub : TReal → TReal → TReal
  | .fin a, .fin b => .fin (a - b)
  | _, _ => .nan

/-- Division with NaN propagation. -/
noncomputable def TReal.div : TReal → TReal → TReal
  | .fin a, .fin b => .fin (a / b)
  | _, _ => .nan

/-- Exponential with NaN propagation (`tensor.exp()`). -/
noncomputable def TReal.exp : TReal → TReal
  | .fin a => .fin (Real.exp a)
  | .nan => .nan

/-- Elementwise tensor addition. -/
def vecAdd (a b : List TReal) : List TReal := List.zipWith TReal.add a b

/-- Elementwise tensor subtraction. -/
def vecSub (a b : List TReal) : List TReal := List.zipWith TReal.sub a b

/-- Scalar times tensor (e.g. `kl_beta * kld`). -/
def vecSmul (c : ℝ) (v : List TReal) : List TReal := v.map (fun x => TReal.mul (.fin c) x)

/-- Sum of a tensor, as taken by `torch.mean`'s numerator. -/
def vecSum (v : List TReal) : TReal := v.foldl TReal.add (.fin 0)

/-- `torch.mean` of a 1-d tensor. -/
noncomputable def vecMean (v : List TReal) : TReal := TReal.div (vecSum v) (.fin (v.length : ℝ))

/-- Whether any entry of a tensor is NaN. -/
def vecHasNan (v : List TReal) : Bool := v.any TReal.isNan

/-- Modelled from the spec: `helpers.utils.nan_check_and_break` is not under
src; per the spec, NaN detected in a checked tensor halts fatally (raises),
otherwise the computation continues with the tensor unchanged. -/
def nanCheckAndBreak {ε : Type} (v : List TReal) (err : ε) : Except ε (List TReal) :=
  if vecHasNan v then .error err else .ok v

/-- Errors raised inside `IsotropicGaussian.reparmeterize` and its helper. -/
inductive GaussErr where
  | assertViolation : GaussErr
  | nanMu : GaussErr
  | nanLogvar : GaussErr

/-- The Gaussian parameter record returned by `IsotropicGaussian.forward`:
`{mu, logvar, mu_mean, logvar_mean}`. -/
structure GaussParams where
  mu : List TReal
  logvar : List TReal
  muMean : TReal
  logvarMean : TReal

/-- `IsotropicGaussian._reparametrize_gaussian`: in training mode the code
computes `std = logvar.mul(0.5).exp()`, draws `eps ~ N(0,1)` (the `noise`
argument here), NaN-checks `logvar`, and returns `eps.mul(std).add_(mu)`;
in eval mode it returns `mu`. -/
noncomputable def IsotropicGaussian.reparametrizeGaussian (training : Bool)
    (mu logvar : List TReal) (noise : List ℝ) : Except GaussErr (List TReal) :=
  if training then
    match nanCheckAndBreak logvar GaussErr.nanLogvar with
    | .error e => .error e
    | .ok _ =>
      .ok (List.zipWith
        (fun ml ne => TReal.add (TReal.mul (.fin ne) (TReal.exp (TReal.mul ml.2 (.fin (1/2))))) ml.1)
        (mu.zip logvar) noise)
  else .ok mu

/-- `IsotropicGaussian.reparmeterize` on a 2-d input row: asserts the even
feature split against `output_size`, takes `mu` as the first half (with a
NaN check), `sigma` as the second half plus the small `eps` offset, and
hands both to `_reparametrize_gaussian`.  Returns `(z, mu, sigma)`. -/
noncomputable def IsotropicGaussian.reparmeterize (training : Bool) (outputSize : ℕ)
    (eps : ℝ) (logits : List TReal) (noise : List ℝ) :
    Except GaussErr (List TReal × List TReal × List TReal) :=
  let featureSize := logits.length
  if featureSize % 2 = 0 ∧ featureSize / 2 = outputSize then
    let mu := logits.take (featureSize / 2)
    match nanCheckAndBreak mu GaussErr.nanMu with
    | .error e => .error e
    | .ok _ =>
      let sigma := (logits.drop (featureSize / 2)).map (fun v => TReal.add v (.fin eps))
      match IsotropicGaussian.reparametrizeGaussian training mu sigma noise with
      | .error e => .error e
      | .ok z => .ok (z, mu, sigma)
  else .error GaussErr.assertViolation

/-- `IsotropicGaussian.forward`: reparameterize, then wrap the parameter
record with the extra `mu_mean` / `logvar_mean` scalars. -/
noncomputable def IsotropicGaussian.forward (training : Bool) (outputSize : ℕ)
    (eps : ℝ) (logits : List TReal) (noise : List ℝ) :
    Except GaussErr (List TReal × GaussParams) :=
  match IsotropicGaussian.reparmeterize training outputSize eps logits noise with
  | .error e => .error e
  | .ok (z, mu, logvar) => .ok (z, ⟨mu, logvar, vecMean mu, vecMean logvar⟩)

/-- The train/eval toggling fragment of `generate_synthetic_samples` under
`use_aggregate_posterior`: the code saves `training_tmp`, calls
`train(False)`, invokes the reparameterizer, and restores the flag on the
line after the call.  `repar` is the reparameterizer forward as a function
of the module's training flag; the result's second component is the
training flag left on the module.  When the reparameterizer raises, the
restore line is never reached, so the flag stays `false`. -/
def generateSyntheticSamplesAgg {γ ε : Type} (repar : Bool → Except ε γ)
    (training0 : Bool) : Except ε γ × Bool :=
  match repar false with
  | .ok z => (.ok z, training0)
  | .error e => (.error e, false)

/-- `GumbelSoftmax._setup_anneal_params`: `tau0 = 1.0`. -/
def GumbelSoftmax.tau0 : ℝ := 1

/-- `GumbelSoftmax._setup_anneal_params`: `anneal_rate = 3e-6`. -/
noncomputable def GumbelSoftmax.annealRate : ℝ := 3 / 1000000

/-- `GumbelSoftmax._setup_anneal_params`: `min_temp = 0.5`. -/
noncomputable def GumbelSoftmax.minTemp : ℝ := 1 / 2

/-- The mutable scalar state of a `GumbelSoftmax` module: the temperature
`tau`, the internal step counter `iteration`, and the `training` flag. -/
structure GumbelState where
  tau : ℝ
  iteration : ℕ
  training : Bool

/-- Construction-time state: `tau = tau0 = 1.0`, `iteration = 0`, and the
module starts in training mode (the torch default). -/
def gumbelInit : GumbelState := ⟨1, 0, true⟩

/-- `GumbelSoftmax.anneal`: only in training mode, with a positive step
counter divisible by `anneal_interval`, set
`tau = max(tau0 * exp(-anneal_rate * iteration), min_temp)`. -/
noncomputable def GumbelSoftmax.anneal (annealInterval : ℕ) (s : GumbelState) : GumbelState :=
  if s.training = true ∧ 0 < s.iteration ∧ s.iteration % annealInterval = 0 then
    let newTau :=
      max (GumbelSoftmax.tau0 * Real.exp (-GumbelSoftmax.annealRate * (s.iteration : ℝ)))
        GumbelSoftmax.minTemp
    { s with tau := newTau }
  else s

/-- The Gumbel noise transform inside `_gumbel_softmax`: a uniform draw `u`
becomes `-log(-log(u + eps) + eps)` elementwise. -/
noncomputable def gumbelNoise (eps : ℝ) (u : List ℝ) : List ℝ :=
  u.map (fun ui => -Real.log (-Real.log (ui + eps) + eps))

/-- `F.softmax` along the last dim on one row. -/
noncomputable def softmaxFn (xs : List ℝ) : List ℝ :=
  xs.map (fun v => Real.exp v / (xs.map Real.exp).sum)

/-- `GumbelSoftmax._gumbel_softmax`: add Gumbel noise to the logits, divide
by `tau`, then softmax of the result plus `eps`. -/
noncomputable def gumbelSoftmaxCore (x u : List ℝ) (tau eps : ℝ) : List ℝ :=
  softmaxFn ((List.zipWith (fun a b => a + b) x (gumbelNoise eps u)).map (fun v => v / tau + eps))

/-- `torch.max` over the last dim of one row (the empty-row default 0 is
unreachable on softmax outputs). -/
def listMax : List ℝ → ℝ
  | [] => 0
  | a :: as' => as'.foldl max a

/-- The `torch.eq(y_max, y)` cast to float inside `sample_gumbel`: 1 where
the row attains its max, 0 elsewhere. -/
noncomputable def hardIndicator (y : List ℝ) : List ℝ :=
  y.map (fun yi => if yi = listMax y then 1 else 0)

/-- The straight-through assembly `y_hard = (y_hard - y).detach() + y`;
`detach` leaves forward values unchanged. -/
def straightThrough (yHard y : List ℝ) : List ℝ :=
  List.zipWith (fun a b => a + b) (List.zipWith (fun a b => a - b) yHard y) y

/-- `GumbelSoftmax.sample_gumbel`: the soft relaxation plus, when `hard`
is set, the straight-through hard sample. -/
noncomputable def GumbelSoftmax.sampleGumbel (x u : List ℝ) (tau eps : ℝ) (hard : Bool) :
    List ℝ × Option (List ℝ) :=
  let y := gumbelSoftmaxCore x u tau eps
  if hard then (y, some (straightThrough (hardIndicator y) y))
  else (y, none)

/-- `GumbelSoftmax.forward`: anneal first (interval 10), reparameterize via
`sample_gumbel` with `hard=True`, increment the step counter, and return
the soft sample in training mode or the hard sample in eval mode, along
with the post-call scalar state.  The noise eps default is `1e-9`. -/
noncomputable def GumbelSoftmax.forward (s : GumbelState) (eps : ℝ) (logits u : List ℝ) :
    List ℝ × GumbelState :=
  let s1 := GumbelSoftmax.anneal 10 s
  let y := gumbelSoftmaxCore logits u s1.tau eps
  let yHard := straightThrough (hardIndicator y) y
  ((if s1.training = true then y else yHard), { s1 with iteration := s1.iteration + 1 })

/-- One forward call's effect on the scalar state alone. -/
noncomputable def gumbelStateStep (s : GumbelState) : GumbelState :=
  let s1 := GumbelSoftmax.anneal 10 s
  { s1 with iteration := s1.iteration + 1 }

/-- The scalar state after `n` training-mode forward calls from
construction. -/
noncomputable def gumbelIter : ℕ → GumbelState
  | 0 => gumbelInit
  | n + 1 => gumbelStateStep (gumbelIter n)

/-- A row is a valid one-hot vector: some entry is 1 and every other
entry is 0. -/
def isOneHot (l : List ℝ) : Prop :=
  ∃ i, i < l.length ∧ l[i]? = some 1 ∧ ∀ j, j < l.length → j ≠ i → l[j]? = some 0

/-- The hard output of a `sample_gumbel` result, for stating one-hot
properties of the hard sample. -/
def hardIsOneHot (r : List ℝ × Option (List ℝ)) : Prop :=
  match r.2 with
  | some h => isOneHot h
  | none => False

/-- Errors raised by the NaN guards in `AbstractVAE.loss_function`. -/
inductive LossErr where
  | nanNll : LossErr
  | nanKld : LossErr

/-- The dict returned by `AbstractVAE.loss_function` (the `proxy` entry of
the code is passed in already reduced to a tensor; `zeros_like(elbo)` when
the reparameterizer defines no proxy layer). -/
structure LossDict where
  loss : List TReal
  lossMean : TReal
  elboMean : TReal
  nllMean : TReal
  kldMean : TReal
  proxyMean : TReal
  mutInfoMean : TReal

/-- `AbstractVAE.loss_function`: `nll` is the output of the external
`nll_fn`, `kld` of `self.kld(params)`, `mutInfo` of
`self.mut_info(params, batch)` and `proxy` of the reparameterizer proxy
layer, all abstracted as inputs.  The code NaN-checks `nll` then `kld`,
sets `elbo = nll + kld`, `loss = (nll + kl_beta * kld) - mut_info`, and
returns the dict of the loss and the reduced means. -/
noncomputable def AbstractVAE.lossFunction (klBeta : ℝ) (nll kld mutInfo proxy : List TReal) :
    Except LossErr LossDict :=
  match nanCheckAndBreak nll LossErr.nanNll with
  | .error e => .error e
  | .ok _ =>
    match nanCheckAndBreak kld LossErr.nanKld with
    | .error e => .error e
    | .ok _ =>
      let elbo := vecAdd nll kld
      let loss := vecSub (vecAdd nll (vecSmul klBeta kld)) mutInfo
      .ok ⟨loss, vecMean loss, vecMean elbo, vecMean nll, vecMean kld,
           vecMean proxy, vecMean mutInfo⟩

/-- Failure modes of the `VRNNMemory` query methods: the `assert` in the
source (its message is "do a forward pass first"), the Python IndexError
from `memory_buffer[-1]` on an empty list, and the runtime error raised by
`torch.cat` on an empty list of tensors. -/
inductive MemErr where
  | assertionError : MemErr
  | indexError : MemErr
  | catEmpty : MemErr
  deriving DecidableEq

/-- `VRNNMemory` state.  `α` is the type of RNN outputs, `β` of the hidden
and cell tensors; `memory_buffer` holds `(output, (h, c))` snapshots.  The
`state` and `outputs` attributes do not exist until first assigned, hence
`Option`. -/
structure VRNNMemory (α β : Type) where
  memoryBuffer : List (α × (β × β))
  state : Option (β × β)
  outputs : Option α

/-- `VRNNMemory.__init__`: `memory_buffer = []`; no `state`/`outputs`
attributes yet. -/
def VRNNMemory.mk0 (α β : Type) : VRNNMemory α β := ⟨[], none, none⟩

/-- `VRNNMemory.clear`: empties the memory buffer. -/
def VRNNMemory.clear (m : VRNNMemory α β) : VRNNMemory α β :=
  { m with memoryBuffer := [] }

/-- `VRNNMemory._append_to_buffer`: appends a cloned `(output, state)`
snapshot (cloning is the identity on values). -/
def VRNNMemory.appendToBuffer (m : VRNNMemory α β) (tpl : α × (β × β)) : VRNNMemory α β :=
  { m with memoryBuffer := m.memoryBuffer ++ [tpl] }

/-- `VRNNMemory.update`: append to the buffer and set the current
`outputs` and `state`. -/
def VRNNMemory.update (m : VRNNMemory α β) (tpl : α × (β × β)) : VRNNMemory α β :=
  { m.appendToBuffer tpl with outputs := some tpl.1, state := some tpl.2 }

/-- `VRNNMemory.init_state`: replaces the state wholesale with a fresh
`(h, c)` pair (zeros, or small Gaussian noise under the configured flag;
the generated pair is the `s0` argument). -/
def VRNNMemory.initState (m : VRNNMemory α β) (s0 : β × β) : VRNNMemory α β :=
  { m with state := some s0 }

/-- `VRNNMemory.forward`: optionally re-initialize the state, then run the
wrapped recurrent `model` on the input and current state, archive the
result, and return the updated memory with the current output.  Accessing
`self.state` before any `init_state`/`update` is a Python AttributeError,
modelled as `none`. -/
def VRNNMemory.forward (model : α → β × β → α × (β × β)) (m : VRNNMemory α β)
    (input : α) (resetState : Bool) (s0 : β × β) : Option (VRNNMemory α β × α) :=
  let m1 := if resetState then m.initState s0 else m
  match m1.state with
  | none => none
  | some st =>
    let tpl := model input st
    some (m1.update tpl, tpl.1)

/-- `N` successive `forward` calls with `reset_state=False` (the default). -/
def VRNNMemory.forwardSeq (model : α → β × β → α × (β × β)) (m : VRNNMemory α β)
    (s0 : β × β) : List α → Option (VRNNMemory α β)
  | [] => some m
  | x :: xs =>
    match VRNNMemory.forward model m x false s0 with
    | none => none
    | some (m1, _) => VRNNMemory.forwardSeq model m1 s0 xs

/-- The attribute probed by the asserts in `get_merged_memory` and
`get_final_memory`: `hasattr(self, 'memory_buffer')`.  `__init__` always
sets `memory_buffer`, so on any constructed object this is `true`. -/
def VRNNMemory.hasattrMemoryBuffer (_m : VRNNMemory α β) : Bool := true

/-- `VRNNMemory.get_final_memory`: assert `hasattr(self, 'memory_buffer')`,
then return the hidden component (`[0]` of the `(h, c)` pair) of
`memory_buffer[-1]`; indexing an empty buffer is a Python IndexError. -/
def VRNNMemory.getFinalMemory (m : VRNNMemory α β) : Except MemErr β :=
  if m.hasattrMemoryBuffer = false then .error MemErr.assertionError
  else
    match m.memoryBuffer.getLast? with
    | some tpl => .ok tpl.2.1
    | none => .error MemErr.indexError

/-- `VRNNMemory.get_merged_memory`: assert `hasattr(self, 'memory_buffer')`,
then `torch.cat` the hidden components of all buffered states and take
their mean; `torch.cat` on an empty list raises.  The result is modelled
as the list of hidden components whose mean the code returns. -/
def VRNNMemory.getMergedMemory (m : VRNNMemory α β) : Except MemErr (List β) :=
  if m.hasattrMemoryBuffer = false then .error MemErr.assertionError
  else if m.memoryBuffer.isEmpty then .error MemErr.catEmpty
  else .ok (m.memoryBuffer.map (fun tpl => tpl.2.1))

/-- The snapshot trace the wrapped recurrent `model` produces from state
`st` over a list of inputs (specification-side recurrence for the buffer
contents). -/
def rnnTrace (model : α → β × β → α × (β × β)) (st : β × β) : List α → List (α × (β × β))
  | [] => []
  | x :: xs =>
    let r := model x st
    r :: rnnTrace model r.2 xs

/-- The VRNN single-input unroll loop of `VRNN.forward`: at loop index `i`
with `r` steps remaining, decode `step input`, then update the input as
`decode_i` when `i = 0` and `decode_i + input` otherwise, collecting the
decoded outputs. -/
def vrnnLoop [Add α] (step : α → α) : ℕ → ℕ → α → List α
  | _, 0, _ => []
  | i, r + 1, input =>
    let d := step input
    let input2 := if i = 0 then d else d + input
    d :: vrnnLoop step (i + 1) r input2

/-- `VRNN.forward` on a single (non-list) input: unroll `vrnnLoop` for
`max_time_steps` steps starting at index 0.  `step` abstracts
`VRNN.step` (posterior, decode and memory update for one timestep). -/
def VRNN.forwardSingle [Add α] (step : α → α) (input : α) (maxTimeSteps : ℕ) : List α :=
  vrnnLoop step 0 maxTimeSteps input

/-- The input fed to loop iteration `i` of the single-input unroll (the
value of the `input_t` variable at the top of iteration `i`). -/
def vrnnInputAt [Add α] (step : α → α) (input0 : α) : ℕ → α
  | 0 => input0
  | i + 1 =>
    let d := step (vrnnInputAt step input0 i)
    if i = 0 then d else d + vrnnInputAt step input0 i

/-- The memory object obtained by running `update` over a list of inputs
from a known state (total specification-side version of `forwardSeq`). -/
def vrnnMemRun (model : α → β × β → α × (β × β)) (m : VRNNMemory α β) (st : β × β) :
    List α → VRNNMemory α β
  | [] => m
  | x :: xs => vrnnMemRun model (m.update (model x st)) (model x st).2 xs

/-- The always-additive input recurrence entered after the first loop
iteration of the VRNN single-input unroll. -/
def vrnnAddIter [Add α] (step : α → α) (y : α) : ℕ → α
  | 0 => y
  | k + 1 => step (vrnnAddIter step y k) + vrnnAddIter step y k

/-- `TReal.isNan` on `nan`. -/
@[simp] theorem TReal.isNan_nan : TReal.isNan .nan = true := rfl

/-- `TReal.isNan` on a finite value. -/
@[simp] theorem TReal.isNan_fin (x : ℝ) : TReal.isNan (.fin x) = false := rfl

/-- A tensor of finite values has no NaN entry. -/
@[simp] theorem vecHasNan_map_fin (l : List ℝ) : vecHasNan (l.map TReal.fin) = false := by
  induction l with
  | nil => rfl
  | cons x xs ih => simp only [List.map_cons, vecHasNan, List.any_cons, TReal.isNan_fin,
      Bool.false_or] at ih ⊢; exact ih

/-- `nan_check_and_break` passes on a tensor of finite values. -/
theorem nanCheckAndBreak_map_fin {ε : Type} (l : List ℝ) (err : ε) :
    nanCheckAndBreak (l.map TReal.fin) err = .ok (l.map TReal.fin) := by
  simp [nanCheckAndBreak]

/-- Unfolding one positive-index iteration of the unroll loop: past the
first iteration the feedback is always additive. -/
theorem vrnnLoop_succ_pos {α : Type} [Add α] (step : α → α) (i r : ℕ) (x : α) (hi : i ≠ 0) :
    vrnnLoop step i (r + 1) x = step x :: vrnnLoop step (i + 1) r (step x + x) := by
  simp [vrnnLoop, hi]

/-- Shifting the additive recurrence by one step. -/
theorem vrnnAddIter_shift {α : Type} [Add α] (step : α → α) (y : α) (k : ℕ) :
    vrnnAddIter step y (k + 1) = vrnnAddIter step (step y + y) k := by
  induction k with
  | zero => rfl
  | succ k ih => rw [vrnnAddIter, ih, vrnnAddIter]

/-- The loop at positive index lists the decodings of the additive
recurrence. -/
theorem vrnnLoop_pos_eq_map {α : Type} [Add α] (step : α → α) :
    ∀ (r i : ℕ) (y : α), i ≠ 0 →
      vrnnLoop step i r y = (List.range r).map (fun k => step (vrnnAddIter step y k)) := by
  intro r
  induction r with
  | zero => intro i y _; rfl
  | succ r ih =>
    intro i y hi
    rw [vrnnLoop_succ_pos step i r y hi, ih (i + 1) (step y + y) (Nat.succ_ne_zero i),
      List.range_succ_eq_map, List.map_cons, List.map_map]
    refine congrArg₂ _ rfl (List.map_congr_left ?_)
    intro k _
    simp [Function.comp, vrnnAddIter_shift]

/-- The input at iteration `k + 1` equals the additive recurrence seeded
with the first decoding. -/
theorem vrnnInputAt_succ_eq_addIter {α : Type} [Add α] (step : α → α) (x : α) (k : ℕ) :
    vrnnInputAt step x (k + 1) = vrnnAddIter step (step x) k := by
  induction k with
  | zero => rfl
  | succ k ih => rw [vrnnInputAt, ih, vrnnAddIter]; simp

/-- C1 (amended): in `VRNN.forward` on a single input, the decoded outputs
are `step` applied to the running input; the input to step 1 is the step-0
decoding alone (`input = decoded`, replacing the original input), and only
from step 1 onwards is the feedback additive
(`input = decoded + previous input`). -/
theorem C1_theorem {α : Type} [Add α] (step : α → α) (x : α) (T : ℕ) :
    VRNN.forwardSingle step x T = (List.range T).map (fun k => step (vrnnInputAt step x k))
    ∧ vrnnInputAt step x 1 = step x
    ∧ ∀ i, 1 ≤ i →
        vrnnInputAt step x (i + 1) = step (vrnnInputAt step x i) + vrnnInputAt step x i := by
  refine ⟨?_, rfl, ?_⟩
  · cases T with
    | zero => rfl
    | succ r =>
      have h0 : VRNN.forwardSingle step x (r + 1) = step x :: vrnnLoop step 1 r (step x) := by
        simp [VRNN.forwardSingle, vrnnLoop]
      rw [h0, vrnnLoop_pos_eq_map step r 1 (step x) one_ne_zero, List.range_succ_eq_map,
        List.map_cons, List.map_map]
      refine congrArg₂ _ rfl (List.map_congr_left ?_)
      intro k _
      simp [Function.comp, vrnnInputAt_succ_eq_addIter]
  · intro i hi
    obtain ⟨j, rfl⟩ := Nat.exists_eq_add_of_le hi
    rw [vrnnInputAt]
    simp [Nat.add_comm 1 j]

/-- Witness for C1: the additive feedback equation instantiated at step 1
of a concrete integer rollout. -/
theorem C1_witness :
    1 ≤ 1 ∧ vrnnInputAt (fun z => z + z) (5 : ℤ) 2 =
      (fun z => z + z) (vrnnInputAt (fun z => z + z) (5 : ℤ) 1) +
        vrnnInputAt (fun z => z + z) (5 : ℤ) 1 :=
  ⟨le_refl 1, (C1_theorem (fun z => z + z) (5 : ℤ) 2).2.2 1 (le_refl 1)⟩

/-- Counterexample to C1 as stated: at step 0 the next input is the decoded
output alone, not the previous input plus the decoded output (with the
constant decoder 1 and initial input 5, the step-1 input is 1, not 6). -/
theorem C1_counterexample :
    vrnnInputAt (fun _ => (1 : ℤ)) 5 (0 + 1) ≠
      vrnnInputAt (fun _ => (1 : ℤ)) 5 0 + (fun _ => (1 : ℤ)) (vrnnInputAt (fun _ => (1 : ℤ)) 5 0) := by
  decide

/-- Buffer of an `update`. -/
@[simp] theorem VRNNMemory.update_memoryBuffer {α β : Type} (m : VRNNMemory α β)
    (tpl : α × (β × β)) : (m.update tpl).memoryBuffer = m.memoryBuffer ++ [tpl] := rfl

/-- State of an `update`. -/
@[simp] theorem VRNNMemory.update_state {α β : Type} (m : VRNNMemory α β)
    (tpl : α × (β × β)) : (m.update tpl).state = some tpl.2 := rfl

/-- `forwardSeq` from a memory whose state exists never hits the missing
attribute and is computed by `vrnnMemRun`. -/
theorem VRNNMemory.forwardSeq_eq_memRun {α β : Type} (model : α → β × β → α × (β × β))
    (s0 : β × β) :
    ∀ (inputs : List α) (m : VRNNMemory α β) (st : β × β), m.state = some st →
      VRNNMemory.forwardSeq model m s0 inputs = some (vrnnMemRun model m st inputs) := by
  intro inputs
  induction inputs with
  | nil => intro m st _; rfl
  | cons x xs ih =>
    intro m st hst
    have hf : VRNNMemory.forward model m x false s0 =
        some (m.update (model x st), (model x st).1) := by
      simp [VRNNMemory.forward, hst]
    rw [VRNNMemory.forwardSeq, hf]
    exact ih (m.update (model x st)) (model x st).2 rfl

/-- The buffer after `vrnnMemRun` is the prior buffer extended with the
`rnnTrace` of the wrapped model. -/
theorem vrnnMemRun_memoryBuffer {α β : Type} (model : α → β × β → α × (β × β)) :
    ∀ (inputs : List α) (m : VRNNMemory α β) (st : β × β),
      (vrnnMemRun model m st inputs).memoryBuffer = m.memoryBuffer ++ rnnTrace model st inputs := by
  intro inputs
  induction inputs with
  | nil => intro m st; simp [vrnnMemRun, rnnTrace]
  | cons x xs ih =>
    intro m st
    rw [vrnnMemRun, rnnTrace, ih]
    simp

/-- The `rnnTrace` has one snapshot per input. -/
theorem rnnTrace_length {α β : Type} (model : α → β × β → α × (β × β)) :
    ∀ (inputs : List α) (st : β × β), (rnnTrace model st inputs).length = inputs.length := by
  intro inputs
  induction inputs with
  | nil => intro st; rfl
  | cons x xs ih => intro st; simp [rnnTrace, ih]

/-- C3: after `init_state` on a freshly constructed `VRNNMemory` followed
by `N` `forward` calls without an intervening `clear`, the run succeeds,
the history buffer is exactly the `N`-snapshot trace of the wrapped model
(so its length is `N`); after `clear()` it has length 0; and
`get_final_memory()` returns the hidden component (first element of the
`(h, c)` pair) of the `N`th archived snapshot. -/
theorem C3_theorem {α β : Type} (model : α → β × β → α × (β × β)) (s0 : β × β)
    (inputs : List α) :
    VRNNMemory.forwardSeq model ((VRNNMemory.mk0 α β).initState s0) s0 inputs
      = some (vrnnMemRun model ((VRNNMemory.mk0 α β).initState s0) s0 inputs)
    ∧ (vrnnMemRun model ((VRNNMemory.mk0 α β).initState s0) s0 inputs).memoryBuffer
        = rnnTrace model s0 inputs
    ∧ (vrnnMemRun model ((VRNNMemory.mk0 α β).initState s0) s0 inputs).memoryBuffer.length
        = inputs.length
    ∧ ((vrnnMemRun model ((VRNNMemory.mk0 α β).initState s0) s0 inputs).clear).memoryBuffer.length
        = 0
    ∧ ∀ snap, (rnnTrace model s0 inputs).getLast? = some snap →
        (vrnnMemRun model ((VRNNMemory.mk0 α β).initState s0) s0 inputs).getFinalMemory
          = .ok snap.2.1 := by
  have hbuf : (vrnnMemRun model ((VRNNMemory.mk0 α β).initState s0) s0 inputs).memoryBuffer
      = rnnTrace model s0 inputs := by
    rw [vrnnMemRun_memoryBuffer]
    rfl
  refine ⟨VRNNMemory.forwardSeq_eq_memRun model s0 inputs _ s0 rfl, hbuf, ?_, rfl, ?_⟩
  · rw [hbuf, rnnTrace_length]
  · intro snap hsnap
    rw [VRNNMemory.getFinalMemory, hbuf, hsnap]
    simp [VRNNMemory.hasattrMemoryBuffer]

/-- Witness for C3: a two-step integer run; the final memory is the hidden
component of the second archived snapshot. -/
theorem C3_witness :
    ((rnnTrace (fun (x : ℤ) (st : ℤ × ℤ) => (x + st.1, (st.1 + 1, st.2))) ((0 : ℤ), (0 : ℤ))
        [10, 20]).getLast? = some (21, (2, 0)))
    ∧ (vrnnMemRun (fun (x : ℤ) (st : ℤ × ℤ) => (x + st.1, (st.1 + 1, st.2)))
          ((VRNNMemory.mk0 ℤ ℤ).initState (0, 0)) (0, 0) [10, 20]).getFinalMemory = .ok 2 :=
  ⟨by decide,
   (C3_theorem (fun (x : ℤ) (st : ℤ × ℤ) => (x + st.1, (st.1 + 1, st.2))) (0, 0) [10, 20]).2.2.2.2
     (21, (2, 0)) (by decide)⟩

/-- C4: on a freshly constructed `VRNNMemory` (no forward pass yet), the
`hasattr` asserts in `get_final_memory` / `get_merged_memory` pass vacuously
(the attribute is set in `__init__`), and the calls fail with the Python
IndexError of `memory_buffer[-1]` resp. the `torch.cat`-on-empty-list
runtime error — not with the usage-order assertion. -/
theorem C4_theorem :
    (VRNNMemory.mk0 ℤ ℤ).getFinalMemory = .error MemErr.indexError
    ∧ (VRNNMemory.mk0 ℤ ℤ).getMergedMemory = .error MemErr.catEmpty
    ∧ (VRNNMemory.mk0 ℤ ℤ).getFinalMemory ≠ .error MemErr.assertionError
    ∧ (VRNNMemory.mk0 ℤ ℤ).getMergedMemory ≠ .error MemErr.assertionError := by
  refine ⟨rfl, rfl, ?_, ?_⟩
  · intro h
    exact (by decide : MemErr.indexError ≠ MemErr.assertionError)
      (Except.error.inj (show (Except.error MemErr.indexError : Except MemErr ℤ)
        = Except.error MemErr.assertionError from h))
  · intro h
    exact (by decide : MemErr.catEmpty ≠ MemErr.assertionError)
      (Except.error.inj (show (Except.error MemErr.catEmpty : Except MemErr (List ℤ))
        = Except.error MemErr.assertionError from h))

/-- C9 (amended): under `use_aggregate_posterior`, the reparameterizer's
prior training flag is restored on the normal return path; but when the
reparameterizer call raises, the restore line is never executed and the
module is left in eval mode (`training = false`). -/
theorem C9_theorem {γ ε : Type} (repar : Bool → Except ε γ) (t0 : Bool) :
    (∀ z, repar false = .ok z → generateSyntheticSamplesAgg repar t0 = (.ok z, t0))
    ∧ (∀ e, repar false = .error e →
        generateSyntheticSamplesAgg repar t0 = (.error e, false)) := by
  constructor
  · intro z hz
    rw [generateSyntheticSamplesAgg, hz]
  · intro e he
    rw [generateSyntheticSamplesAgg, he]

/-- Witness for C9: a succeeding reparameterizer leaves the saved training
flag restored. -/
theorem C9_witness :
    ((fun _ : Bool => (Except.ok (0 : ℤ) : Except Unit ℤ)) false = Except.ok 0)
    ∧ generateSyntheticSamplesAgg (fun _ : Bool => (Except.ok (0 : ℤ) : Except Unit ℤ)) true
        = (.ok 0, true) :=
  ⟨rfl, (C9_theorem (fun _ : Bool => (Except.ok (0 : ℤ) : Except Unit ℤ)) true).1 0 rfl⟩

/-- Counterexample to C9 as stated: with the Gaussian reparameterizer fed
an EMA tensor whose `mu` half is NaN, the call raises inside the toggled
region (even in eval mode, `reparmeterize` NaN-checks `mu`), and the
training flag observed after the call is `false` although it was `true`
before — restoration does not happen on the error path. -/
theorem C9_counterexample :
    (generateSyntheticSamplesAgg
        (fun tr => IsotropicGaussian.forward tr 1 (1 / 1000000) [TReal.nan, TReal.fin 0] [1])
        true).2 = false
    ∧ (generateSyntheticSamplesAgg
        (fun tr => IsotropicGaussian.forward tr 1 (1 / 1000000) [TReal.nan, TReal.fin 0] [1])
        true).1 = .error GaussErr.nanMu := by
  have hrep : IsotropicGaussian.forward false 1 (1 / 1000000) [TReal.nan, TReal.fin 0] [1]
      = .error GaussErr.nanMu := by
    simp [IsotropicGaussian.forward, IsotropicGaussian.reparmeterize, nanCheckAndBreak,
      vecHasNan, List.take]
  rw [generateSyntheticSamplesAgg, hrep]
  exact ⟨rfl, rfl⟩

/-- Evaluating `reparmeterize` on a NaN-free tensor of even width `2k`:
the assert passes, `mu` is the first `k` entries, `sigma` the last `k`
offset by `eps`, and the result is `_reparametrize_gaussian` on them. -/
theorem IsotropicGaussian.reparmeterize_map_fin (training : Bool) (k : ℕ) (eps : ℝ)
    (l noise : List ℝ) (h : l.length = 2 * k) :
    IsotropicGaussian.reparmeterize training k eps (l.map TReal.fin) noise =
      match IsotropicGaussian.reparametrizeGaussian training ((l.take k).map TReal.fin)
          (((l.drop k).map (fun v => v + eps)).map TReal.fin) noise with
      | .error e => .error e
      | .ok z => .ok (z, (l.take k).map TReal.fin,
          ((l.drop k).map (fun v => v + eps)).map TReal.fin) := by
  have hdiv : 2 * k / 2 = k := Nat.mul_div_cancel_left k (by norm_num)
  rw [IsotropicGaussian.reparmeterize]
  simp only [List.length_map, h, Nat.mul_mod_right, hdiv, ← List.map_take, ← List.map_drop,
    nanCheckAndBreak_map_fin, and_true, eq_self_iff_true, if_true, List.map_map]
  have hsig : (TReal.fin ∘ fun v => v + eps) = (fun v => TReal.add (TReal.fin v) (TReal.fin eps)) := by
    funext v
    simp [Function.comp, TReal.add]
  rw [hsig]
  rfl

/-- C7: in evaluation mode the Gaussian reparameterizer ignores the noise
draw entirely — two calls on identical logits return identical results —
and the returned latent is exactly the `mu` half of the logits. -/
theorem C7_theorem (k : ℕ) (eps : ℝ) (l n1 n2 : List ℝ) (h : l.length = 2 * k) :
    IsotropicGaussian.forward false k eps (l.map TReal.fin) n1 =
      IsotropicGaussian.forward false k eps (l.map TReal.fin) n2
    ∧ IsotropicGaussian.forward false k eps (l.map TReal.fin) n1 =
        .ok ((l.take k).map TReal.fin,
          ⟨(l.take k).map TReal.fin, ((l.drop k).map (fun v => v + eps)).map TReal.fin,
           vecMean ((l.take k).map TReal.fin),
           vecMean (((l.drop k).map (fun v => v + eps)).map TReal.fin)⟩) := by
  have key : ∀ n : List ℝ,
      IsotropicGaussian.forward false k eps (l.map TReal.fin) n =
        .ok ((l.take k).map TReal.fin,
          ⟨(l.take k).map TReal.fin, ((l.drop k).map (fun v => v + eps)).map TReal.fin,
           vecMean ((l.take k).map TReal.fin),
           vecMean (((l.drop k).map (fun v => v + eps)).map TReal.fin)⟩) := by
    intro n
    rw [IsotropicGaussian.forward, IsotropicGaussian.reparmeterize_map_fin false k eps l n h]
    rfl
  exact ⟨(key n1).trans (key n2).symm, key n1⟩

/-- Witness for C7: a concrete even-width eval-mode call with two
different noise draws. -/
theorem C7_witness :
    ([(3 : ℝ), 4].length = 2 * 1)
    ∧ IsotropicGaussian.forward false 1 0 ([(3 : ℝ), 4].map TReal.fin) [9] =
        IsotropicGaussian.forward false 1 0 ([(3 : ℝ), 4].map TReal.fin) [7] :=
  ⟨rfl, (C7_theorem 1 0 [3, 4] [9] [7] rfl).1⟩

/-- C5 (amended): in training mode on logits of even width `2k`, the
returned sample is `mu + exp(0.5 * sigma) * noise` elementwise, where `mu`
is the first `k` features and `sigma` is the last `k` features offset by
`eps`: the second half is treated as a log-variance and exponentiated, it
is not a multiplicative sigma as stated. -/
theorem C5_theorem (k : ℕ) (eps : ℝ) (l noise : List ℝ) (h : l.length = 2 * k) :
    IsotropicGaussian.forward true k eps (l.map TReal.fin) noise =
      .ok (List.zipWith (fun p ne => TReal.fin (ne * Real.exp (p.2 * (1 / 2)) + p.1))
            ((l.take k).zip ((l.drop k).map (fun v => v + eps))) noise,
        ⟨(l.take k).map TReal.fin, ((l.drop k).map (fun v => v + eps)).map TReal.fin,
         vecMean ((l.take k).map TReal.fin),
         vecMean (((l.drop k).map (fun v => v + eps)).map TReal.fin)⟩) := by
  rw [IsotropicGaussian.forward, IsotropicGaussian.reparmeterize_map_fin true k eps l noise h,
    IsotropicGaussian.reparametrizeGaussian]
  simp only [if_pos rfl, nanCheckAndBreak_map_fin, List.zip_map, List.zipWith_map_left]
  have hz : (fun (a : ℝ × ℝ) (b : ℝ) =>
      TReal.add (TReal.mul (TReal.fin b)
        (TReal.exp (TReal.mul (Prod.map TReal.fin TReal.fin a).2 (TReal.fin (1 / 2)))))
        (Prod.map TReal.fin TReal.fin a).1)
      = (fun (p : ℝ × ℝ) (ne : ℝ) => TReal.fin (ne * Real.exp (p.2 * (1 / 2)) + p.1)) := by
    funext p ne
    simp [Prod.map, TReal.mul, TReal.exp, TReal.add]
  rw [hz]
  simp

/-- Witness for C5: a concrete training-mode call with logits `[3, 4]`,
`k = 1`, `eps = 0` and noise `[2]`. -/
theorem C5_witness :
    ([(3 : ℝ), 4].length = 2 * 1)
    ∧ IsotropicGaussian.forward true 1 0 ([(3 : ℝ), 4].map TReal.fin) [2] =
        .ok (List.zipWith (fun p ne => TReal.fin (ne * Real.exp (p.2 * (1 / 2)) + p.1))
              (([(3 : ℝ), 4].take 1).zip (([(3 : ℝ), 4].drop 1).map (fun v => v + 0))) [2],
          ⟨([(3 : ℝ), 4].take 1).map TReal.fin,
           (([(3 : ℝ), 4].drop 1).map (fun v => v + 0)).map TReal.fin,
           vecMean (([(3 : ℝ), 4].take 1).map TReal.fin),
           vecMean ((([(3 : ℝ), 4].drop 1).map (fun v => v + 0)).map TReal.fin)⟩) :=
  ⟨rfl, C5_theorem 1 0 [3, 4] [2] rfl⟩

/-- Counterexample to C5 as stated: with logits `[0, 0]`, `eps = 1e-6` and
a unit noise draw, the claim predicts the sample `mu + sigma * noise =
0 + (0 + 1e-6) * 1 = 1e-6`, but the code returns
`exp(0.5 * (0 + 1e-6)) >= 1`. -/
theorem C5_counterexample :
    (IsotropicGaussian.forward true 1 (1 / 1000000) [TReal.fin 0, TReal.fin 0] [1]).toOption.map
        Prod.fst ≠ some [TReal.fin ((0 : ℝ) + ((0 : ℝ) + 1 / 1000000) * 1)] := by
  have h : IsotropicGaussian.forward true 1 (1 / 1000000) [TReal.fin 0, TReal.fin 0] [1] =
      .ok (List.zipWith (fun p ne => TReal.fin (ne * Real.exp (p.2 * (1 / 2)) + p.1))
            (([(0 : ℝ), 0].take 1).zip (([(0 : ℝ), 0].drop 1).map (fun v => v + 1 / 1000000))) [1],
        ⟨([(0 : ℝ), 0].take 1).map TReal.fin,
         (([(0 : ℝ), 0].drop 1).map (fun v => v + 1 / 1000000)).map TReal.fin,
         vecMean (([(0 : ℝ), 0].take 1).map TReal.fin),
         vecMean ((([(0 : ℝ), 0].drop 1).map (fun v => v + 1 / 1000000)).map TReal.fin)⟩) :=
    C5_theorem 1 (1 / 1000000) [0, 0] [1] rfl
  rw [h]
  simp only [List.take, List.drop, List.map, List.zip, List.zipWith, List.zipWith_cons_cons,
    Except.toOption, Option.map, ne_eq, Option.some.injEq, List.cons.injEq, and_true]
  intro hfin
  have hval : (1 : ℝ) * Real.exp ((0 + 1 / 1000000) * (1 / 2)) + 0 = 0 + (0 + 1 / 1000000) * 1 :=
    TReal.fin.inj hfin
  have hexp : (1 : ℝ) ≤ Real.exp ((0 + 1 / 1000000) * (1 / 2)) :=
    Real.one_le_exp (by norm_num)
  nlinarith [hexp]

/-- Folding `TReal.add` over finite values stays finite. -/
theorem foldl_add_map_fin : ∀ (l : List ℝ) (a : ℝ),
    List.foldl TReal.add (TReal.fin a) (l.map TReal.fin) =
      TReal.fin (List.foldl (fun x y => x + y) a l) := by
  intro l
  induction l with
  | nil => intro a; rfl
  | cons x xs ih => intro a; simpa [TReal.add] using ih (a + x)

/-- Real foldl-addition against an accumulator. -/
theorem foldl_add_eq_sum : ∀ (l : List ℝ) (a : ℝ),
    List.foldl (fun x y => x + y) a l = a + l.sum := by
  intro l
  induction l with
  | nil => intro a; simp
  | cons x xs ih => intro a; simp [ih, add_assoc]

/-- `vecSum` on finite values is the real sum. -/
theorem vecSum_map_fin (l : List ℝ) : vecSum (l.map TReal.fin) = TReal.fin l.sum := by
  rw [vecSum, foldl_add_map_fin l 0, foldl_add_eq_sum, zero_add]

/-- `vecMean` on finite values is the real mean. -/
theorem vecMean_map_fin (l : List ℝ) :
    vecMean (l.map TReal.fin) = TReal.fin (l.sum / (l.length : ℝ)) := by
  rw [vecMean, vecSum_map_fin, List.length_map, TReal.div]

/-- `vecAdd` on finite values is the real pointwise sum. -/
theorem vecAdd_map_fin (a : List ℝ) : ∀ (b : List ℝ),
    vecAdd (a.map TReal.fin) (b.map TReal.fin) =
      (List.zipWith (fun x y => x + y) a b).map TReal.fin := by
  induction a with
  | nil => intro b; rfl
  | cons x xs ih =>
    intro b
    cases b with
    | nil => rfl
    | cons y ys =>
      have h1 : vecAdd ((x :: xs).map TReal.fin) ((y :: ys).map TReal.fin)
          = TReal.fin (x + y) :: vecAdd (xs.map TReal.fin) (ys.map TReal.fin) := rfl
      rw [h1, ih ys]
      rfl

/-- `vecSub` against finite values is the real pointwise difference. -/
theorem vecSub_map_fin (a : List ℝ) : ∀ (b : List ℝ),
    vecSub (a.map TReal.fin) (b.map TReal.fin) =
      (List.zipWith (fun x y => x - y) a b).map TReal.fin := by
  induction a with
  | nil => intro b; rfl
  | cons x xs ih =>
    intro b
    cases b with
    | nil => rfl
    | cons y ys =>
      have h1 : vecSub ((x :: xs).map TReal.fin) ((y :: ys).map TReal.fin)
          = TReal.fin (x - y) :: vecSub (xs.map TReal.fin) (ys.map TReal.fin) := rfl
      rw [h1, ih ys]
      rfl

/-- `vecSmul` on finite values is the real scalar product. -/
theorem vecSmul_map_fin (c : ℝ) (b : List ℝ) :
    vecSmul c (b.map TReal.fin) = (b.map (fun x => c * x)).map TReal.fin := by
  simp [vecSmul, List.map_map, Function.comp, TReal.mul]

/-- C8: on NaN-free inputs `loss_function` returns
`loss = nll + kl_beta * kld - mut_info` and reports the unweighted ELBO
`nll + kld` (as `elbo_mean`); a NaN in the `nll` scalar path, or in the
`kld` scalar path, halts fatally with the corresponding error. -/
theorem C8_theorem (klBeta : ℝ) (nl kl mi pr : List ℝ) (nll2 kld2 mi2 pr2 : List TReal) :
    (AbstractVAE.lossFunction klBeta (nl.map TReal.fin) (kl.map TReal.fin) (mi.map TReal.fin)
        (pr.map TReal.fin) =
      .ok ⟨(List.zipWith (fun x y => x - y)
              (List.zipWith (fun x y => x + y) nl (kl.map (fun x => klBeta * x))) mi).map TReal.fin,
           TReal.fin ((List.zipWith (fun x y => x - y)
              (List.zipWith (fun x y => x + y) nl (kl.map (fun x => klBeta * x))) mi).sum /
             ((List.zipWith (fun x y => x - y)
              (List.zipWith (fun x y => x + y) nl (kl.map (fun x => klBeta * x))) mi).length : ℝ)),
           TReal.fin ((List.zipWith (fun x y => x + y) nl kl).sum /
             ((List.zipWith (fun x y => x + y) nl kl).length : ℝ)),
           TReal.fin (nl.sum / (nl.length : ℝ)),
           TReal.fin (kl.sum / (kl.length : ℝ)),
           TReal.fin (pr.sum / (pr.length : ℝ)),
           TReal.fin (mi.sum / (mi.length : ℝ))⟩)
    ∧ (vecHasNan nll2 = true →
        AbstractVAE.lossFunction klBeta nll2 kld2 mi2 pr2 = .error LossErr.nanNll)
    ∧ (vecHasNan nll2 = false → vecHasNan kld2 = true →
        AbstractVAE.lossFunction klBeta nll2 kld2 mi2 pr2 = .error LossErr.nanKld) := by
  refine ⟨?_, ?_, ?_⟩
  · rw [AbstractVAE.lossFunction]
    simp only [nanCheckAndBreak_map_fin]
    rw [vecSmul_map_fin, vecAdd_map_fin, vecSub_map_fin, vecAdd_map_fin,
      vecMean_map_fin, vecMean_map_fin, vecMean_map_fin, vecMean_map_fin, vecMean_map_fin,
      vecMean_map_fin]
  · intro hn
    rw [AbstractVAE.lossFunction, nanCheckAndBreak, hn]
    rfl
  · intro hn hk
    rw [AbstractVAE.lossFunction, nanCheckAndBreak, hn]
    simp only [Bool.false_eq_true, if_false]
    rw [nanCheckAndBreak, hk]
    rfl

/-- Witness for C8: the NaN guards fire on a NaN `nll` tensor, and on a
NaN `kld` tensor behind a clean `nll`. -/
theorem C8_witness :
    (vecHasNan [TReal.nan] = true ∧
      AbstractVAE.lossFunction 1 [TReal.nan] [] [] [] = .error LossErr.nanNll)
    ∧ (vecHasNan [TReal.fin 0] = false ∧ vecHasNan [TReal.nan] = true ∧
      AbstractVAE.lossFunction 1 [TReal.fin 0] [TReal.nan] [] [] = .error LossErr.nanKld) :=
  ⟨⟨rfl, (C8_theorem 1 [] [] [] [] [TReal.nan] [] [] []).2.1 rfl⟩,
   ⟨rfl, rfl, (C8_theorem 1 [] [] [] [] [TReal.fin 0] [TReal.nan] [] []).2.2 rfl rfl⟩⟩

/-- `anneal` never touches the step counter. -/
@[simp] theorem GumbelSoftmax.anneal_iteration (k : ℕ) (s : GumbelState) :
    (GumbelSoftmax.anneal k s).iteration = s.iteration := by
  rw [GumbelSoftmax.anneal]
  split <;> rfl

/-- `anneal` never touches the training flag. -/
@[simp] theorem GumbelSoftmax.anneal_training (k : ℕ) (s : GumbelState) :
    (GumbelSoftmax.anneal k s).training = s.training := by
  rw [GumbelSoftmax.anneal]
  split <;> rfl

/-- `anneal` is the identity when the update condition fails. -/
theorem GumbelSoftmax.anneal_not_cond (k : ℕ) (s : GumbelState)
    (h : ¬(s.training = true ∧ 0 < s.iteration ∧ s.iteration % k = 0)) :
    GumbelSoftmax.anneal k s = s := by
  rw [GumbelSoftmax.anneal, if_neg h]

/-- `anneal` updates the temperature when the condition holds. -/
theorem GumbelSoftmax.anneal_cond (k : ℕ) (s : GumbelState)
    (h : s.training = true ∧ 0 < s.iteration ∧ s.iteration % k = 0) :
    (GumbelSoftmax.anneal k s).tau =
      max (GumbelSoftmax.tau0 * Real.exp (-GumbelSoftmax.annealRate * (s.iteration : ℝ)))
        GumbelSoftmax.minTemp := by
  rw [GumbelSoftmax.anneal, if_pos h]

/-- The step counter counts the forward calls. -/
theorem gumbelIter_iteration : ∀ n : ℕ, (gumbelIter n).iteration = n := by
  intro n
  induction n with
  | zero => rfl
  | succ n ih => simp [gumbelIter, gumbelStateStep, ih]

/-- The training flag stays on along the training-mode sequence. -/
theorem gumbelIter_training : ∀ n : ℕ, (gumbelIter n).training = true := by
  intro n
  induction n with
  | zero => rfl
  | succ n ih => simp [gumbelIter, gumbelStateStep, ih]

/-- The exponential-decay bound is antitone in the step count. -/
theorem expMaxBound_antitone (n : ℕ) :
    max (Real.exp (-GumbelSoftmax.annealRate * ((n + 1 : ℕ) : ℝ))) GumbelSoftmax.minTemp ≤
      max (Real.exp (-GumbelSoftmax.annealRate * (n : ℝ))) GumbelSoftmax.minTemp := by
  refine max_le_max (Real.exp_le_exp.mpr ?_) le_rfl
  have hrate : (0 : ℝ) ≤ GumbelSoftmax.annealRate := by
    rw [GumbelSoftmax.annealRate]
    norm_num
  have hcast : ((n : ℝ)) ≤ ((n + 1 : ℕ) : ℝ) := by
    push_cast
    linarith
  nlinarith

/-- Invariant: after `n` training-mode forward calls the temperature is at
least the current decay bound. -/
theorem gumbelIter_tau_lb : ∀ n : ℕ,
    max (Real.exp (-GumbelSoftmax.annealRate * (n : ℝ))) GumbelSoftmax.minTemp ≤
      (gumbelIter n).tau := by
  intro n
  induction n with
  | zero =>
    have h0 : max (Real.exp (-GumbelSoftmax.annealRate * ((0 : ℕ) : ℝ))) GumbelSoftmax.minTemp
        = 1 := by
      rw [GumbelSoftmax.minTemp]
      norm_num
    rw [h0]
    exact le_refl 1
  | succ n ih =>
    show max (Real.exp (-GumbelSoftmax.annealRate * ((n + 1 : ℕ) : ℝ))) GumbelSoftmax.minTemp ≤
      (gumbelStateStep (gumbelIter n)).tau
    have hstep : (gumbelStateStep (gumbelIter n)).tau = (GumbelSoftmax.anneal 10 (gumbelIter n)).tau := rfl
    rw [hstep]
    by_cases hc : (gumbelIter n).training = true ∧ 0 < (gumbelIter n).iteration ∧
        (gumbelIter n).iteration % 10 = 0
    · rw [GumbelSoftmax.anneal_cond 10 (gumbelIter n) hc, gumbelIter_iteration,
        GumbelSoftmax.tau0, one_mul]
      exact expMaxBound_antitone n
    · rw [GumbelSoftmax.anneal_not_cond 10 (gumbelIter n) hc]
      exact le_trans (expMaxBound_antitone n) ih

/-- Monotonicity: each training-mode forward call can only lower `tau`. -/
theorem gumbelIter_tau_mono (n : ℕ) : (gumbelIter (n + 1)).tau ≤ (gumbelIter n).tau := by
  show (gumbelStateStep (gumbelIter n)).tau ≤ (gumbelIter n).tau
  have hstep : (gumbelStateStep (gumbelIter n)).tau = (GumbelSoftmax.anneal 10 (gumbelIter n)).tau := rfl
  rw [hstep]
  by_cases hc : (gumbelIter n).training = true ∧ 0 < (gumbelIter n).iteration ∧
      (gumbelIter n).iteration % 10 = 0
  · rw [GumbelSoftmax.anneal_cond 10 (gumbelIter n) hc, gumbelIter_iteration,
      GumbelSoftmax.tau0, one_mul]
    exact le_trans le_rfl (le_trans (le_refl _) (gumbelIter_tau_lb n))
  · rw [GumbelSoftmax.anneal_not_cond 10 (gumbelIter n) hc]

/-- C2: the temperature updates only in training mode when the step
counter is a positive multiple of the interval (default 10, as used by
`forward`); the updated value is
`max(tau0 * exp(-anneal_rate * iteration), min_temp)` with `tau0 = 1.0`,
`anneal_rate = 3e-6`, `min_temp = 0.5`; the step counter increments
exactly once per forward call regardless of annealing; and along any
training-mode forward sequence from construction the `tau` values are
non-increasing and bounded below by `min_temp`. -/
theorem C2_theorem :
    (∀ (s : GumbelState) (eps : ℝ) (l u : List ℝ),
        ¬(s.training = true ∧ 0 < s.iteration ∧ s.iteration % 10 = 0) →
        (GumbelSoftmax.forward s eps l u).2.tau = s.tau)
    ∧ (∀ (s : GumbelState) (eps : ℝ) (l u : List ℝ),
        s.training = true → 0 < s.iteration → s.iteration % 10 = 0 →
        (GumbelSoftmax.forward s eps l u).2.tau =
          max (GumbelSoftmax.tau0 * Real.exp (-GumbelSoftmax.annealRate * (s.iteration : ℝ)))
            GumbelSoftmax.minTemp)
    ∧ (∀ (s : GumbelState) (eps : ℝ) (l u : List ℝ),
        (GumbelSoftmax.forward s eps l u).2.iteration = s.iteration + 1)
    ∧ (∀ (n : ℕ) (eps : ℝ) (l u : List ℝ),
        gumbelIter (n + 1) = (GumbelSoftmax.forward (gumbelIter n) eps l u).2)
    ∧ (∀ n : ℕ, (gumbelIter (n + 1)).tau ≤ (gumbelIter n).tau
        ∧ GumbelSoftmax.minTemp ≤ (gumbelIter n).tau) := by
  refine ⟨?_, ?_, ?_, ?_, ?_⟩
  · intro s eps l u h
    show (GumbelSoftmax.anneal 10 s).tau = s.tau
    rw [GumbelSoftmax.anneal_not_cond 10 s h]
  · intro s eps l u h1 h2 h3
    show (GumbelSoftmax.anneal 10 s).tau = _
    exact GumbelSoftmax.anneal_cond 10 s ⟨h1, h2, h3⟩
  · intro s eps l u
    show (GumbelSoftmax.anneal 10 s).iteration + 1 = s.iteration + 1
    rw [GumbelSoftmax.anneal_iteration]
  · intro n eps l u
    rfl
  · intro n
    exact ⟨gumbelIter_tau_mono n, le_trans (le_max_right _ _) (gumbelIter_tau_lb n)⟩

/-- Witness for C2: at a state with step counter 10 in training mode, a
forward call sets `tau` to the annealed value and bumps the counter. -/
theorem C2_witness :
    ((⟨1, 10, true⟩ : GumbelState).training = true ∧ 0 < (10 : ℕ) ∧ (10 : ℕ) % 10 = 0)
    ∧ (GumbelSoftmax.forward ⟨1, 10, true⟩ 0 [] []).2.tau =
        max (GumbelSoftmax.tau0 *
            Real.exp (-GumbelSoftmax.annealRate * (((⟨1, 10, true⟩ : GumbelState).iteration : ℝ))))
          GumbelSoftmax.minTemp
    ∧ (GumbelSoftmax.forward ⟨1, 10, true⟩ 0 [] []).2.iteration = 11 :=
  ⟨⟨rfl, by decide, by decide⟩,
   C2_theorem.2.1 ⟨1, 10, true⟩ 0 [] [] rfl (by decide) (by decide),
   C2_theorem.2.2.1 ⟨1, 10, true⟩ 0 [] []⟩

/-- On equal lengths the straight-through assembly returns the hard values
unchanged (`(h - y) + y = h` elementwise). -/
theorem straightThrough_eq : ∀ (hl yl : List ℝ), hl.length = yl.length →
    straightThrough hl yl = hl := by
  intro hl
  induction hl with
  | nil => intro yl _; rfl
  | cons a as ih =>
    intro yl hlen
    cases yl with
    | nil => simp at hlen
    | cons b bs =>
      have h1 : straightThrough (a :: as) (b :: bs) = (a - b + b) :: straightThrough as bs := rfl
      have h2 : a - b + b = a := by ring
      rw [h1, h2, ih bs (by simpa using hlen)]

/-- The indicator has the same length as its input row. -/
theorem hardIndicator_length (y : List ℝ) : (hardIndicator y).length = y.length := by
  simp [hardIndicator]

/-- Softmax of a two-entry row. -/
theorem softmaxFn_pair (p q : ℝ) :
    softmaxFn [p, q] =
      [Real.exp p / (Real.exp p + Real.exp q), Real.exp q / (Real.exp p + Real.exp q)] := by
  simp [softmaxFn]

/-- Indicator of a two-entry row with a strictly larger first entry. -/
theorem hardIndicator_pair_left (a b : ℝ) (hba : b < a) : hardIndicator [a, b] = [1, 0] := by
  have hmax : listMax [a, b] = a := by
    rw [listMax]
    simp [max_eq_left hba.le]
  simp [hardIndicator, hmax, hba.ne]

/-- Indicator of a two-entry row with a strictly larger second entry. -/
theorem hardIndicator_pair_right (a b : ℝ) (hab : a < b) : hardIndicator [a, b] = [0, 1] := by
  have hmax : listMax [a, b] = b := by
    rw [listMax]
    simp [max_eq_right hab.le]
  simp [hardIndicator, hmax, hab.ne]

/-- Indicator of a tied two-entry row: both entries flagged. -/
theorem hardIndicator_pair_diag (c : ℝ) : hardIndicator [c, c] = [1, 1] := by
  simp [hardIndicator, listMax, max_self]

/-- The indicator of a pair softmax follows the pre-softmax ordering. -/
theorem hardIndicator_softmaxFn_pair_left (p q : ℝ) (hqp : q < p) :
    hardIndicator (softmaxFn [p, q]) = [1, 0] := by
  rw [softmaxFn_pair]
  have hS : (0 : ℝ) < Real.exp p + Real.exp q := by positivity
  exact hardIndicator_pair_left _ _ ((div_lt_div_iff_of_pos_right hS).mpr (Real.exp_lt_exp.mpr hqp))

/-- Symmetric version of the previous lemma. -/
theorem hardIndicator_softmaxFn_pair_right (p q : ℝ) (hpq : p < q) :
    hardIndicator (softmaxFn [p, q]) = [0, 1] := by
  rw [softmaxFn_pair]
  have hS : (0 : ℝ) < Real.exp p + Real.exp q := by positivity
  exact hardIndicator_pair_right _ _ ((div_lt_div_iff_of_pos_right hS).mpr (Real.exp_lt_exp.mpr hpq))

/-- Strict monotonicity of the Gumbel noise transform
`u ↦ -log(-log(u + eps) + eps)` on draws below the unit interval. -/
theorem gumbelNoiseVal_lt (e u v : ℝ) (he : 0 ≤ e) (hu0 : 0 < u + e) (hv1 : v + e < 1)
    (huv : u < v) :
    -Real.log (-Real.log (u + e) + e) < -Real.log (-Real.log (v + e) + e) := by
  have hv0 : 0 < v + e := lt_trans hu0 (by linarith)
  have hlog : Real.log (u + e) < Real.log (v + e) := Real.log_lt_log hu0 (by linarith)
  have hvneg : Real.log (v + e) < 0 := Real.log_neg hv0 hv1
  have ht1pos : 0 < -Real.log (v + e) + e := by linarith
  have ht12 : -Real.log (v + e) + e < -Real.log (u + e) + e := by linarith
  have hfin := Real.log_lt_log ht1pos ht12
  linarith

/-- Unfolding the Gumbel-softmax pipeline on a two-entry zero-logits row. -/
theorem gumbelSoftmaxCore_pair_zero (a b tau e : ℝ) :
    gumbelSoftmaxCore [0, 0] [a, b] tau e =
      softmaxFn [(0 + -Real.log (-Real.log (a + e) + e)) / tau + e,
                 (0 + -Real.log (-Real.log (b + e) + e)) / tau + e] := rfl

/-- The row `[1, 1]` is not one-hot: two entries equal 1. -/
theorem not_isOneHot_pair_ones : ¬ isOneHot [(1 : ℝ), 1] := by
  rintro ⟨i, hi, h1, hrest⟩
  have h2 : i < 2 := hi
  interval_cases i
  · have hx := hrest 1 (by decide) (by decide)
    rw [show ([(1 : ℝ), 1][1]?) = some 1 from rfl] at hx
    exact one_ne_zero (Option.some.inj hx)
  · have hx := hrest 0 (by decide) (by decide)
    rw [show ([(1 : ℝ), 1][0]?) = some 1 from rfl] at hx
    exact one_ne_zero (Option.some.inj hx)

/-- C6 (amended): `sample_gumbel` with `hard=True` returns the soft sample
together with a hard sample whose forward value is the elementwise
indicator of the soft row's maximum (the straight-through detach is the
identity on forward values); every entry of the hard sample is 0 or 1 and
an entry is 1 exactly where the soft sample attains its maximum; whenever
the soft sample attains its maximum at a unique index the hard sample is a
valid one-hot vector — the one-hot argmax of the soft sample.  (Under a
tie in the soft row, several entries are 1, so the unqualified claim
fails.) -/
theorem C6_theorem :
    (∀ (x u : List ℝ) (tau eps : ℝ),
        GumbelSoftmax.sampleGumbel x u tau eps true =
          (gumbelSoftmaxCore x u tau eps,
           some (hardIndicator (gumbelSoftmaxCore x u tau eps))))
    ∧ (∀ (y : List ℝ) (v : ℝ), v ∈ hardIndicator y → v = 0 ∨ v = 1)
    ∧ (∀ (y : List ℝ) (i : ℕ), i < y.length →
        ((hardIndicator y)[i]? = some 1 ↔ y[i]? = some (listMax y)))
    ∧ (∀ (y : List ℝ) (j : ℕ), j < y.length → y[j]? = some (listMax y) →
        (∀ i, i < y.length → i ≠ j → y[i]? ≠ some (listMax y)) →
        isOneHot (hardIndicator y)) := by
  have hkey : ∀ (y : List ℝ) (i : ℕ), i < y.length →
      ((hardIndicator y)[i]? = some 1 ↔ y[i]? = some (listMax y)) := by
    intro y i hlt
    have hget : y[i]? = some y[i] := List.getElem?_eq_getElem hlt
    have hmap : (hardIndicator y)[i]? =
        some (if y[i] = listMax y then (1 : ℝ) else 0) := by
      rw [hardIndicator, List.getElem?_map, hget]
      rfl
    rw [hmap, hget]
    by_cases hm : y[i] = listMax y
    · simp [hm]
    · simp [hm]
  refine ⟨?_, ?_, hkey, ?_⟩
  · intro x u tau eps
    have h1 : GumbelSoftmax.sampleGumbel x u tau eps true =
        (gumbelSoftmaxCore x u tau eps,
         some (straightThrough (hardIndicator (gumbelSoftmaxCore x u tau eps))
           (gumbelSoftmaxCore x u tau eps))) := rfl
    rw [h1, straightThrough_eq _ _ (hardIndicator_length _)]
  · intro y v hv
    rw [hardIndicator] at hv
    obtain ⟨yi, _, rfl⟩ := List.mem_map.mp hv
    by_cases hm : yi = listMax y
    · right
      simp [hm]
    · left
      simp [hm]
  · intro y j hj hmax hothers
    refine ⟨j, ?_, (hkey y j hj).mpr hmax, ?_⟩
    · rw [hardIndicator_length]
      exact hj
    · intro i hi hij
      have hilen : i < y.length := by
        rw [hardIndicator_length] at hi
        exact hi
      have hget : y[i]? = some y[i] := List.getElem?_eq_getElem hilen
      have hne : y[i] ≠ listMax y := by
        intro hcontra
        exact hothers i hilen hij (by rw [hget, hcontra])
      rw [hardIndicator, List.getElem?_map, hget]
      simp [hne]

/-- Witness for C6: the soft row `[2, 1]` attains its maximum uniquely at
index 0, so the hard indicator is a valid one-hot vector. -/
theorem C6_witness : isOneHot (hardIndicator [(2 : ℝ), 1]) := by
  refine C6_theorem.2.2.2 [(2 : ℝ), 1] 0 (by decide) ?_ ?_
  · rw [show listMax [(2 : ℝ), 1] = max 2 1 from rfl, max_eq_left (by norm_num)]
    rfl
  · intro i hi hij
    have h2 : i < 2 := hi
    interval_cases i
    · exact absurd rfl hij
    · rw [show listMax [(2 : ℝ), 1] = max 2 1 from rfl, max_eq_left (by norm_num),
        show ([(2 : ℝ), 1][1]?) = some 1 from rfl]
      intro hx
      have := Option.some.inj hx
      norm_num at this

/-- Counterexample to C6 as stated: with logits `[0, 0]` and the tied
uniform draw `[0.3, 0.3]` at `tau = 1`, the soft sample is a tie and the
hard sample produced by `sample_gumbel` is `[1, 1]` — not a valid one-hot
vector. -/
theorem C6_counterexample :
    ¬ hardIsOneHot
      (GumbelSoftmax.sampleGumbel [0, 0] [3 / 10, 3 / 10] 1 (1 / 1000000000) true) := by
  have hcore : gumbelSoftmaxCore [0, 0] [3 / 10, 3 / 10] 1 (1 / 1000000000) =
      softmaxFn [(0 + -Real.log (-Real.log (3 / 10 + 1 / 1000000000) + 1 / 1000000000)) / 1
          + 1 / 1000000000,
        (0 + -Real.log (-Real.log (3 / 10 + 1 / 1000000000) + 1 / 1000000000)) / 1
          + 1 / 1000000000] :=
    gumbelSoftmaxCore_pair_zero (3 / 10) (3 / 10) 1 (1 / 1000000000)
  have hsample : GumbelSoftmax.sampleGumbel [0, 0] [3 / 10, 3 / 10] 1 (1 / 1000000000) true =
      (gumbelSoftmaxCore [0, 0] [3 / 10, 3 / 10] 1 (1 / 1000000000),
       some (hardIndicator (gumbelSoftmaxCore [0, 0] [3 / 10, 3 / 10] 1 (1 / 1000000000)))) := by
    have h1 : GumbelSoftmax.sampleGumbel [0, 0] [3 / 10, 3 / 10] 1 (1 / 1000000000) true =
        (gumbelSoftmaxCore [0, 0] [3 / 10, 3 / 10] 1 (1 / 1000000000),
         some (straightThrough
           (hardIndicator (gumbelSoftmaxCore [0, 0] [3 / 10, 3 / 10] 1 (1 / 1000000000)))
           (gumbelSoftmaxCore [0, 0] [3 / 10, 3 / 10] 1 (1 / 1000000000)))) := rfl
    rw [h1, straightThrough_eq _ _ (hardIndicator_length _)]
  have hhard : hardIndicator (gumbelSoftmaxCore [0, 0] [3 / 10, 3 / 10] 1 (1 / 1000000000))
      = [1, 1] := by
    rw [hcore, softmaxFn_pair]
    exact hardIndicator_pair_diag _
  rw [hardIsOneHot, hsample]
  simp only [hhard]
  exact not_isOneHot_pair_ones

/-- C10: in evaluation mode `GumbelSoftmax.forward` returns the
straight-through hard sample computed from the freshly drawn
noise-perturbed softmax (annealing is inert since training is off, so the
temperature used is the module's `tau`); and two evaluation-mode calls on
the identical zero logits with different uniform draws return the two
different one-hot samples `[1, 0]` and `[0, 1]` — Gumbel evaluation is not
deterministic in the draw, unlike the Gaussian eval path. -/
theorem C10_theorem :
    (∀ (s : GumbelState) (eps : ℝ) (logits u : List ℝ), s.training = false →
        (GumbelSoftmax.forward s eps logits u).1 =
          straightThrough (hardIndicator (gumbelSoftmaxCore logits u s.tau eps))
            (gumbelSoftmaxCore logits u s.tau eps))
    ∧ (GumbelSoftmax.forward ⟨1, 0, false⟩ (1 / 1000000000) [0, 0] [9 / 10, 1 / 10]).1 = [1, 0]
    ∧ (GumbelSoftmax.forward ⟨1, 0, false⟩ (1 / 1000000000) [0, 0] [1 / 10, 9 / 10]).1 = [0, 1]
    ∧ ([(1 : ℝ), 0] ≠ [0, 1]) := by
  have hgen : ∀ (s : GumbelState) (eps : ℝ) (logits u : List ℝ), s.training = false →
      (GumbelSoftmax.forward s eps logits u).1 =
        straightThrough (hardIndicator (gumbelSoftmaxCore logits u s.tau eps))
          (gumbelSoftmaxCore logits u s.tau eps) := by
    intro s eps logits u hs
    have hann : GumbelSoftmax.anneal 10 s = s :=
      GumbelSoftmax.anneal_not_cond 10 s (by rw [hs]; simp)
    simp [GumbelSoftmax.forward, hann, hs]
  have hg : -Real.log (-Real.log (1 / 10 + 1 / 1000000000) + 1 / 1000000000) <
      -Real.log (-Real.log (9 / 10 + 1 / 1000000000) + 1 / 1000000000) :=
    gumbelNoiseVal_lt (1 / 1000000000) (1 / 10) (9 / 10) (by norm_num) (by norm_num)
      (by norm_num) (by norm_num)
  have htau : (⟨1, 0, false⟩ : GumbelState).tau = 1 := rfl
  refine ⟨hgen, ?_, ?_, ?_⟩
  · rw [hgen ⟨1, 0, false⟩ (1 / 1000000000) [0, 0] [9 / 10, 1 / 10] rfl, htau,
      gumbelSoftmaxCore_pair_zero, straightThrough_eq _ _ (hardIndicator_length _)]
    refine hardIndicator_softmaxFn_pair_left _ _ ?_
    simp only [zero_add, div_one]
    linarith
  · rw [hgen ⟨1, 0, false⟩ (1 / 1000000000) [0, 0] [1 / 10, 9 / 10] rfl, htau,
      gumbelSoftmaxCore_pair_zero, straightThrough_eq _ _ (hardIndicator_length _)]
    refine hardIndicator_softmaxFn_pair_right _ _ ?_
    simp only [zero_add, div_one]
    linarith
  · intro hcontra
    have h0 := List.head_eq_of_cons_eq hcontra
    norm_num at h0

/-- Witness for C10: the evaluation-mode value equation instantiated on a
concrete state and empty rows. -/
theorem C10_witness :
    ((⟨1, 0, false⟩ : GumbelState).training = false)
    ∧ (GumbelSoftmax.forward ⟨1, 0, false⟩ 0 [] []).1 =
        straightThrough
          (hardIndicator (gumbelSoftmaxCore [] [] (⟨1, 0, false⟩ : GumbelState).tau 0))
          (gumbelSoftmaxCore [] [] (⟨1, 0, false⟩ : GumbelState).tau 0) :=
  ⟨rfl, C10_theorem.1 ⟨1, 0, false⟩ 0 [] [] rfl⟩
